import Mathlib

/-!
Verification of the return-distribution and volatility-triggered
trading-simulation engine of a stock-research dashboard.

The embedded code is the computational core of
`src/components/StockDashboard.tsx`:

* `processedData`   (RollingStatsEngine, lines 55-108),
* `distributionData` (ReturnDistributionBuilder, lines 110-168),
* `simulationData`  (VolatilityTradingSimulator, lines 171-262),
* `downsample`      (Downsampler, lines 265-269).

Numbers are modelled exactly: JavaScript floating-point values become
rationals (`ℚ`).  The one operation that leaves `ℚ` is `Math.sqrt`,
modelled as `Real.sqrt`; where a component merely *consumes* a standard
deviation already computed by `Math.sqrt(variance)` (the simulator and
the histogram-bin construction), the deviation is passed as a `ℚ`
parameter named `sigma`, and theorems that depend on its actual value
add the characterising hypotheses (`0 ≤ sigma`, `sigma ^ 2 = variance`)
or quantify over every `sigma`, which subsumes the computed one.
Dates are modelled as natural numbers (the source normalises dates to
`YYYY-MM-DD` strings and compares them for exact equality only).
-/

/-- `((day.close - prevDay.close) / prevDay.close) * 100` — the daily
percentage change used throughout the source. -/
def pctChange (prev cur : ℚ) : ℚ := (cur - prev) / prev * 100

/-- The list of consecutive percentage changes of a close series.
Source shape (`distributionData` lines 113-117 and the window
computation at lines 76-80): map each index to `0` for index `0` and
`pctChange` otherwise, then drop the leading placeholder `0`
(`.slice(1)`), leaving exactly the changes between consecutive days. -/
def dailyChanges : List ℚ → List ℚ
  | [] => []
  | [_] => []
  | prev :: cur :: rest => pctChange prev cur :: dailyChanges (cur :: rest)

/-- `xs.reduce((a, b) => a + b, 0) / xs.length` — the population mean. -/
def popMean (xs : List ℚ) : ℚ := xs.sum / xs.length

/-- `xs.reduce((a, b) => a + Math.pow(b - mean, 2), 0) / xs.length` —
the population variance (divide by N). -/
def popVarQ (xs : List ℚ) : ℚ := (xs.map (fun x => (x - popMean xs) ^ 2)).sum / xs.length

/-- `Math.sqrt` of the population variance: the population standard
deviation of a rational sample, as a real number. -/
noncomputable def popSD (xs : List ℚ) : ℝ := Real.sqrt ((popVarQ xs : ℚ) : ℝ)

/-- `Math.min(...xs)` for a nonempty list (the source only applies it to
nonempty lists; `0` is a junk value for `[]`). -/
def listMin : List ℚ → ℚ
  | [] => 0
  | x :: xs => xs.foldl min x

/-- `Math.max(...xs)` for a nonempty list (`0` is a junk value for `[]`). -/
def listMax : List ℚ → ℚ
  | [] => 0
  | x :: xs => xs.foldl max x

/-- One entry of the RollingStatsEngine output (`processedData`):
`{...day, changePercent, rollingSD, sma20, upperBand, lowerBand}`.
`date`/`close` mirror the input sample; band fields are `none` while the
20-sample window is not yet available. -/
structure DerivedDay where
  date : ℕ
  close : ℚ
  changePercent : ℚ
  rollingSD : ℝ
  sma20 : Option ℚ
  upperBand : Option ℝ
  lowerBand : Option ℝ

/-- The body of the `history.map((day, index) => ...)` of
`processedData` (lines 60-107) at index `i` of the aligned series
`hist` (list of `(date, close)` pairs).  `hist.getD` stands for the
always-in-range JavaScript index accesses. -/
noncomputable def derivedDay (hist : List (ℕ × ℚ)) (i : ℕ) : DerivedDay :=
  let day := hist.getD i (0, 0)
  let changePercent : ℚ := if i = 0 then 0 else pctChange (hist.getD (i - 1) (0, 0)).2 day.2
  if 19 ≤ i then
    -- `history.slice(index - 19, index + 1)` : the 20 samples `i-19 .. i`
    let slice := (hist.drop (i - 19)).take 20
    let prices := slice.map Prod.snd
    let changes := dailyChanges prices
    let rollingSD : ℝ := if 0 < changes.length then Real.sqrt ((popVarQ changes : ℚ) : ℝ) else 0
    let meanPrice := popMean prices
    let sdPrice : ℝ := Real.sqrt ((popVarQ prices : ℚ) : ℝ)
    { date := day.1, close := day.2, changePercent := changePercent,
      rollingSD := rollingSD, sma20 := some meanPrice,
      upperBand := some ((meanPrice : ℝ) + 2 * sdPrice),
      lowerBand := some ((meanPrice : ℝ) - 2 * sdPrice) }
  else
    { date := day.1, close := day.2, changePercent := changePercent,
      rollingSD := 0, sma20 := none, upperBand := none, lowerBand := none }

/-- `processedData` : the RollingStatsEngine output for an aligned
(date-sorted) history. -/
noncomputable def processedData (hist : List (ℕ × ℚ)) : List DerivedDay :=
  (List.range hist.length).map (derivedDay hist)

/-- `const binSize = 0.1`. -/
def binSize : ℚ := 1 / 10

/-- `Math.floor(change / binSize)` — the integer index (in tenths of a
percentage point) of the bin a change falls into; the source's string
key `(Math.floor(change/binSize)*binSize).toFixed(1)` canonically
identifies exactly this integer. -/
def binIdx (c : ℚ) : ℤ := ⌊c / binSize⌋

/-- The pre-initialised bins: one zero-count bin for every key from
`lo` to `hi` (the exact-arithmetic content of the loop
`for (let i = min; i <= max + binSize/2; i += binSize) bins[i.toFixed(1)] = 0`,
whose iterates are `min, min + 0.1, …, max`). -/
def initBins (lo hi : ℤ) : List (ℤ × ℕ) :=
  (List.range (hi + 1 - lo).toNat).map (fun (n : ℕ) => (lo + (n : ℤ), 0))

/-- The per-change assignment step (lines 156-160):
`if (bins[bin] !== undefined) bins[bin]++;` — the count is incremented
when the key exists, and the bins are returned unchanged otherwise
(the source has no `else` branch creating the bin). -/
def addChange (bins : List (ℤ × ℕ)) (c : ℚ) : List (ℤ × ℕ) :=
  if binIdx c ∈ bins.map Prod.fst then
    bins.map (fun p => if p.1 = binIdx c then (p.1, p.2 + 1) else p)
  else bins

/-- `[mean, mean + sd, mean - sd, mean + 2*sd, mean - 2*sd]` (lines 128-134). -/
def sigmaMarkers (mean sigma : ℚ) : List ℚ :=
  [mean, mean + sigma, mean - sigma, mean + 2 * sigma, mean - 2 * sigma]

/-- The `DistributionResult` returned by `distributionData`.  `bins`
holds `(key, count)` pairs with key in tenths of a percentage point
(bin value = key/10), already in ascending key order, mirroring the
sorted `chartData`. -/
structure DistResult where
  bins : List (ℤ × ℕ)
  mean : ℚ
  sd : ℚ
  count1Sigma : ℕ
  count2Sigma : ℕ
  totalDays : ℕ
deriving DecidableEq

/-- `distributionData` (lines 110-168).  `sigma` stands for
`sd = Math.sqrt(variance)`, passed in because the square root is
irrational in general; every other quantity is computed exactly as in
the source.  A series shorter than 2 yields the zeroed default object. -/
def distributionData (hist : List (ℕ × ℚ)) (sigma : ℚ) : DistResult :=
  if hist.length < 2 then ⟨[], 0, 0, 0, 0, 0⟩
  else
    let changes := dailyChanges (hist.map Prod.snd)
    let mean := popMean changes
    let count1 := (changes.filter (fun c => |c - mean| ≤ sigma)).length
    let count2 := (changes.filter (fun c => |c - mean| ≤ 2 * sigma)).length
    let dataMin := listMin changes
    let dataMax := listMax changes
    let markersMin := listMin (sigmaMarkers mean sigma)
    let markersMax := listMax (sigmaMarkers mean sigma)
    let lo := ⌊min dataMin markersMin / binSize⌋
    let hi := ⌈max dataMax markersMax / binSize⌉
    let bins := changes.foldl addChange (initBins lo hi)
    ⟨bins, mean, sigma, count1, count2, changes.length⟩

/-- The full-series mean of daily changes, as `distributionData`
computes it (`changes.reduce(..)/changes.length`). -/
def distMean (hist : List (ℕ × ℚ)) : ℚ := popMean (dailyChanges (hist.map Prod.snd))

/-- The full-series population variance of daily changes, whose square
root is the `sd` of `distributionData`. -/
def distVariance (hist : List (ℕ × ℚ)) : ℚ := popVarQ (dailyChanges (hist.map Prod.snd))

/-- Zone classification (lines 220-227), in the source's precedence
order: negative zones first with `<=`, then positive zones with `>=`,
else `"0"`. -/
def zoneOf (diff sigma : ℚ) : String :=
  if diff ≤ -2 * sigma then "-2"
  else if diff ≤ -1 * sigma then "-1"
  else if diff ≥ 2 * sigma then "2"
  else if diff ≥ 1 * sigma then "1"
  else "0"

/-- Dividend lookup: the source builds a `Map` from normalised date to
amount (`data.dividends.forEach(d => dividendMap.set(dateStr, d.amount))`,
last write wins) and queries it with the day's normalised date. -/
def divLookup (divs : List (ℕ × ℚ)) (d : ℕ) : Option ℚ :=
  (divs.reverse.find? (fun p => p.1 == d)).map Prod.snd

/-- One point of the simulation's `history` output (lines 241-246). -/
structure HistPoint where
  date : ℕ
  invested : ℚ
  valueReinvest : ℚ
  valueNoReinvest : ℚ
deriving DecidableEq

/-- The mutable accumulators of `simulationData` (lines 176-185). -/
structure SimState where
  sharesReinvest : ℚ
  totalInvested : ℚ
  buyCount : ℕ
  totalDividendsReinvested : ℚ
  buyDates : List ℕ
  sharesNoReinvest : ℚ
  cashNoReinvest : ℚ
  totalDividendsCash : ℚ
deriving DecidableEq

/-- All accumulators start at zero / empty. -/
def initState : SimState := ⟨0, 0, 0, 0, [], 0, 0, 0⟩

/-- Dividend step (lines 199-217): on a dividend date both policies are
paid `sharesHeld * amount`; the Reinvest policy buys shares at today's
close, the Cash policy accrues cash; each crediting is guarded by
`payout > 0`. -/
def divStep (divs : List (ℕ × ℚ)) (day : DerivedDay) (s : SimState) : SimState :=
  match divLookup divs day.date with
  | none => s
  | some amt =>
    let payoutReinvest := s.sharesReinvest * amt
    let s1 :=
      if 0 < payoutReinvest then
        { s with sharesReinvest := s.sharesReinvest + payoutReinvest / day.close,
                 totalDividendsReinvested := s.totalDividendsReinvested + payoutReinvest }
      else s
    let payoutCash := s1.sharesNoReinvest * amt
    if 0 < payoutCash then
      { s1 with cashNoReinvest := s1.cashNoReinvest + payoutCash,
                totalDividendsCash := s1.totalDividendsCash + payoutCash }
    else s1

/-- Buy step (lines 219-239): classify the day's deviation from the
distribution mean into a zone; if the zone is selected, both policies
buy `$100 / close` shares of new capital. -/
def buyStep (zones : List String) (mean sigma : ℚ) (day : DerivedDay) (s : SimState) : SimState :=
  let zone := zoneOf (day.changePercent - mean) sigma
  if zone ∈ zones then
    let sharesBought := 100 / day.close
    { s with sharesReinvest := s.sharesReinvest + sharesBought,
             sharesNoReinvest := s.sharesNoReinvest + sharesBought,
             totalInvested := s.totalInvested + 100,
             buyCount := s.buyCount + 1,
             buyDates := s.buyDates ++ [day.date] }
  else s

/-- The left-to-right simulation pass (`processedData.map(day => ...)`,
lines 196-247): thread the state through dividend step then buy step,
emitting one history point per day from the post-step state. -/
def simRun (divs : List (ℕ × ℚ)) (zones : List String) (mean sigma : ℚ) :
    SimState → List DerivedDay → SimState × List HistPoint
  | s, [] => (s, [])
  | s, d :: ds =>
    let s2 := buyStep zones mean sigma d (divStep divs d s)
    let pt : HistPoint :=
      ⟨d.date, s2.totalInvested, s2.sharesReinvest * d.close,
       s2.sharesNoReinvest * d.close + s2.cashNoReinvest⟩
    let rest := simRun divs zones mean sigma s2 ds
    (rest.1, pt :: rest.2)

/-- The `SimulationResult` object (lines 252-260). -/
structure SimResult where
  history : List HistPoint
  totalBuys : ℕ
  totalInvested : ℚ
  totalDividends : ℚ
  currentValue : ℚ
  totalReturn : ℚ
  buyDates : List ℕ
deriving DecidableEq

/-- `simulationData` (lines 171-262).  The guard
`if (!processedData || processedData.length === 0 || !distributionData.sd) return null`
suppresses the result for an empty series or a zero (falsy) standard
deviation.  `mean`/`sigma` stand for `distributionData.mean`/`.sd`. -/
def simulationData (processed : List DerivedDay) (divs : List (ℕ × ℚ))
    (currentPrice mean sigma : ℚ) (zones : List String) : Option SimResult :=
  if processed.length = 0 ∨ sigma = 0 then none
  else
    let run := simRun divs zones mean sigma initState processed
    let s := run.1
    let currentValueReinvest := s.sharesReinvest * currentPrice
    let totalReturnReinvest :=
      if 0 < s.totalInvested then (currentValueReinvest - s.totalInvested) / s.totalInvested * 100
      else 0
    some ⟨run.2, s.buyCount, s.totalInvested, s.totalDividendsReinvested,
          currentValueReinvest, totalReturnReinvest, s.buyDates⟩

/-- `downsample` (lines 265-269): return short inputs unchanged,
otherwise keep the elements whose index is a multiple of
`step = Math.ceil(length / limit)`.  For `limit = 0` JavaScript's
`step` is `Infinity` and `i % Infinity = i`, so only index 0 survives;
the natural-number translation `step = 0` with `i % 0 = i` keeps
exactly the same elements. -/
def downsample {α : Type} (data : List α) (limit : ℕ) : List α :=
  if data.length ≤ limit then data
  else
    let step := (data.length + limit - 1) / limit
    (data.enum.filter (fun p => p.1 % step == 0)).map Prod.snd

/-- Ceiling division on naturals: `Math.ceil(a / b)` for positive `b`. -/
def cdiv (a b : ℕ) : ℕ := (a + b - 1) / b

/-! ### Abbreviations for the local values of `distributionData` -/

/-- The `changes` array of `distributionData` (lines 113-117). -/
def distChanges (hist : List (ℕ × ℚ)) : List ℚ := dailyChanges (hist.map Prod.snd)

/-- The `min` bin bound of `distributionData` (line 145), as an integer
key: `Math.floor(Math.min(dataMin, markersMin) / binSize)`. -/
def distLo (hist : List (ℕ × ℚ)) (sigma : ℚ) : ℤ :=
  ⌊min (listMin (distChanges hist)) (listMin (sigmaMarkers (distMean hist) sigma)) / binSize⌋

/-- The `max` bin bound of `distributionData` (line 146), as an integer
key: `Math.ceil(Math.max(dataMax, markersMax) / binSize)`. -/
def distHi (hist : List (ℕ × ℚ)) (sigma : ℚ) : ℤ :=
  ⌈max (listMax (distChanges hist)) (listMax (sigmaMarkers (distMean hist) sigma)) / binSize⌉
/-- The 20-sample window `series[i-19 .. i]` of closes described by the
claim (`history.slice(index-19, index+1)` mapped to closes). -/
def windowCloses (hist : List (ℕ × ℚ)) (i : ℕ) : List ℚ :=
  ((hist.drop (i - 19)).take 20).map Prod.snd

/-- The 19 within-window period-over-period percentage changes of the
window, written from the claim's wording: change `j` relates window
sample `j` to window sample `j + 1`, for `j = 0 .. 18`. -/
def windowChanges (hist : List (ℕ × ℚ)) (i : ℕ) : List ℚ :=
  (List.range 19).map (fun j =>
    pctChange ((windowCloses hist i).getD j 0) ((windowCloses hist i).getD (j + 1) 0))
/-- A 20-day constant-price series used to witness the rolling-stats
theorem at index 19. -/
def constHist20 : List (ℕ × ℚ) := (List.range 20).map (fun k => (k, 100))

/-! ### Helper lemmas: list minimum / maximum -/

lemma foldl_min_le_init (xs : List ℚ) : ∀ a : ℚ, xs.foldl min a ≤ a := by
  induction xs with
  | nil => intro a; simp
  | cons x xs ih =>
    intro a
    calc (x :: xs).foldl min a = xs.foldl min (min a x) := rfl
    _ ≤ min a x := ih _
    _ ≤ a := min_le_left _ _

lemma foldl_min_le_mem (xs : List ℚ) : ∀ (a y : ℚ), y ∈ xs → xs.foldl min a ≤ y := by
  induction xs with
  | nil => intro a y hy; simp at hy
  | cons x xs ih =>
    intro a y hy
    rcases List.mem_cons.1 hy with h | h
    · subst h
      calc (y :: xs).foldl min a = xs.foldl min (min a y) := rfl
      _ ≤ min a y := foldl_min_le_init _ _
      _ ≤ y := min_le_right _ _
    · exact ih _ _ h

lemma listMin_le {xs : List ℚ} {y : ℚ} (h : y ∈ xs) : listMin xs ≤ y := by
  cases xs with
  | nil => simp at h
  | cons x t =>
    rcases List.mem_cons.1 h with h' | h'
    · subst h'; exact foldl_min_le_init t y
    · exact foldl_min_le_mem t x y h'

lemma le_foldl_max_init (xs : List ℚ) : ∀ a : ℚ, a ≤ xs.foldl max a := by
  induction xs with
  | nil => intro a; simp
  | cons x xs ih =>
    intro a
    calc a ≤ max a x := le_max_left _ _
    _ ≤ xs.foldl max (max a x) := ih _
    _ = (x :: xs).foldl max a := rfl

lemma le_foldl_max_mem (xs : List ℚ) : ∀ (a y : ℚ), y ∈ xs → y ≤ xs.foldl max a := by
  induction xs with
  | nil => intro a y hy; simp at hy
  | cons x xs ih =>
    intro a y hy
    rcases List.mem_cons.1 hy with h | h
    · subst h
      calc y ≤ max a y := le_max_right _ _
      _ ≤ xs.foldl max (max a y) := le_foldl_max_init _ _
      _ = (y :: xs).foldl max a := rfl
    · exact ih _ _ h

lemma le_listMax {xs : List ℚ} {y : ℚ} (h : y ∈ xs) : y ≤ listMax xs := by
  cases xs with
  | nil => simp at h
  | cons x t =>
    rcases List.mem_cons.1 h with h' | h'
    · subst h'; exact le_foldl_max_init t y
    · exact le_foldl_max_mem t x y h'

/-! ### Helper lemmas: `dailyChanges` -/

lemma dailyChanges_length : ∀ xs : List ℚ, (dailyChanges xs).length = xs.length - 1
  | [] => rfl
  | [_] => rfl
  | a :: b :: t => by
    simp only [dailyChanges, List.length_cons, dailyChanges_length (b :: t)]
    simp

lemma dailyChanges_eq_map : ∀ xs : List ℚ,
    dailyChanges xs
      = (List.range (xs.length - 1)).map (fun j => pctChange (xs.getD j 0) (xs.getD (j + 1) 0))
  | [] => rfl
  | [_] => rfl
  | a :: b :: t => by
    have ih := dailyChanges_eq_map (b :: t)
    show pctChange a b :: dailyChanges (b :: t) = _
    have hlen : (a :: b :: t).length - 1 = ((b :: t).length - 1) + 1 := by simp
    rw [hlen, List.range_succ_eq_map, List.map_cons, List.map_map, ih]
    refine congrArg₂ List.cons ?_ ?_
    · simp [List.getD_cons_zero, List.getD_cons_succ]
    · apply List.map_congr_left
      intro j _
      simp [Function.comp, Nat.succ_eq_add_one, List.getD_cons_succ]

/-! ### Helper lemmas: bins -/

lemma mem_initBins_keys {lo hi k : ℤ} :
    k ∈ (initBins lo hi).map Prod.fst ↔ lo ≤ k ∧ k ≤ hi := by
  simp only [initBins, List.map_map, List.mem_map, List.mem_range, Function.comp]
  constructor
  · rintro ⟨n, hn, rfl⟩
    omega
  · rintro ⟨h1, h2⟩
    exact ⟨(k - lo).toNat, by omega, by omega⟩

lemma initBins_keys_nodup (lo hi : ℤ) : ((initBins lo hi).map Prod.fst).Nodup := by
  have h : (initBins lo hi).map Prod.fst
      = (List.range (hi + 1 - lo).toNat).map (fun (n : ℕ) => lo + (n : ℤ)) := by
    simp [initBins, List.map_map, Function.comp]
  rw [h]
  exact List.Nodup.map (fun a b hab => by omega) (List.nodup_range _)

lemma initBins_counts_sum (lo hi : ℤ) : ((initBins lo hi).map Prod.snd).sum = 0 := by
  apply List.sum_eq_zero
  intro x hx
  simp only [initBins, List.map_map, List.mem_map, Function.comp] at hx
  obtain ⟨n, _, rfl⟩ := hx
  rfl

lemma map_update_of_not_mem {l : List (ℤ × ℕ)} {k : ℤ} (h : k ∉ l.map Prod.fst) :
    l.map (fun p => if p.1 = k then (p.1, p.2 + 1) else p) = l := by
  have : ∀ p ∈ l, (if p.1 = k then (p.1, p.2 + 1) else p) = p := by
    intro p hp
    rw [if_neg]
    intro hpk
    exact h (List.mem_map.2 ⟨p, hp, hpk⟩)
  rw [List.map_congr_left this]
  simp

lemma addChange_map_fst (bins : List (ℤ × ℕ)) (c : ℚ) :
    (addChange bins c).map Prod.fst = bins.map Prod.fst := by
  unfold addChange
  split
  · rw [List.map_map]
    apply List.map_congr_left
    intro p _
    by_cases h : p.1 = binIdx c <;> simp [h, Function.comp]
  · rfl

lemma addChange_sum_of_mem {bins : List (ℤ × ℕ)} {c : ℚ}
    (hnd : (bins.map Prod.fst).Nodup) (hmem : binIdx c ∈ bins.map Prod.fst) :
    ((addChange bins c).map Prod.snd).sum = (bins.map Prod.snd).sum + 1 := by
  unfold addChange
  rw [if_pos hmem]
  induction bins with
  | nil => simp at hmem
  | cons p t ih =>
    simp only [List.map_cons, List.nodup_cons] at hnd
    rcases List.mem_map.1 hmem with ⟨q, hq, hqk⟩
    by_cases hpk : p.1 = binIdx c
    · have ht : binIdx c ∉ t.map Prod.fst := by rw [← hpk]; exact hnd.1
      rw [List.map_cons, if_pos hpk, map_update_of_not_mem ht]
      simp only [List.map_cons, List.sum_cons]
      omega
    · have hmem' : binIdx c ∈ t.map Prod.fst := by
        rcases List.mem_cons.1 hq with h | h
        · exact absurd (h ▸ hqk) hpk
        · exact List.mem_map.2 ⟨q, h, hqk⟩
      simp only [List.map_cons, if_neg hpk, List.sum_cons, ih hnd.2 hmem']
      omega

lemma addChange_of_not_mem {bins : List (ℤ × ℕ)} {c : ℚ}
    (h : binIdx c ∉ bins.map Prod.fst) : addChange bins c = bins := by
  unfold addChange
  rw [if_neg h]

lemma foldl_addChange (cs : List ℚ) : ∀ l : List (ℤ × ℕ),
    (l.map Prod.fst).Nodup → (∀ c ∈ cs, binIdx c ∈ l.map Prod.fst) →
    (cs.foldl addChange l).map Prod.fst = l.map Prod.fst
    ∧ ((cs.foldl addChange l).map Prod.snd).sum = (l.map Prod.snd).sum + cs.length := by
  induction cs with
  | nil => intro l _ _; simp
  | cons c cs ih =>
    intro l hnd hmem
    have hc : binIdx c ∈ l.map Prod.fst := hmem c (List.mem_cons_self _ _)
    have hfst := addChange_map_fst l c
    have hnd' : ((addChange l c).map Prod.fst).Nodup := hfst ▸ hnd
    have hmem' : ∀ x ∈ cs, binIdx x ∈ (addChange l c).map Prod.fst := by
      intro x hx
      rw [hfst]
      exact hmem x (List.mem_cons_of_mem _ hx)
    obtain ⟨h1, h2⟩ := ih (addChange l c) hnd' hmem'
    refine ⟨by rw [List.foldl_cons, h1, hfst], ?_⟩
    rw [List.foldl_cons, h2, addChange_sum_of_mem hnd hc]
    simp [List.length_cons]
    ring

lemma filter_key_length {k : ℤ} : ∀ {l : List (ℤ × ℕ)},
    (l.map Prod.fst).Nodup → k ∈ l.map Prod.fst →
    (l.filter (fun p => p.1 = k)).length = 1 := by
  intro l
  induction l with
  | nil => intro _ hmem; simp at hmem
  | cons p t ih =>
    intro hnd hmem
    simp only [List.map_cons, List.nodup_cons] at hnd
    by_cases hpk : p.1 = k
    · have ht : ∀ q ∈ t, ¬(q.1 = k) := by
        intro q hq hqk
        exact hnd.1 (hpk ▸ hqk ▸ List.mem_map.2 ⟨q, hq, rfl⟩)
      have hft : t.filter (fun p => p.1 = k) = [] := by
        rw [List.filter_eq_nil_iff]
        intro q hq
        simpa using ht q hq
      simp [List.filter_cons, hpk, hft]
    · have hmem' : k ∈ t.map Prod.fst := by
        rcases List.mem_cons.1 hmem with h | h
        · exact absurd h.symm hpk
        · exact h
      simp only [List.filter_cons, hpk, decide_False, Bool.false_eq_true, if_false]
      exact ih hnd.2 hmem'


lemma distributionData_eq (hist : List (ℕ × ℚ)) (sigma : ℚ) (h2 : 2 ≤ hist.length) :
    distributionData hist sigma =
      ⟨(distChanges hist).foldl addChange (initBins (distLo hist sigma) (distHi hist sigma)),
       distMean hist, sigma,
       ((distChanges hist).filter (fun c => |c - distMean hist| ≤ sigma)).length,
       ((distChanges hist).filter (fun c => |c - distMean hist| ≤ 2 * sigma)).length,
       (distChanges hist).length⟩ := by
  simp [distributionData, distChanges, distLo, distHi, distMean, Nat.not_lt.2 h2]

lemma getD_map_snd (hist : List (ℕ × ℚ)) (j : ℕ) :
    (hist.map Prod.snd).getD j 0 = (hist.getD j (0, 0)).2 := by
  rw [List.getD_eq_getElem?_getD, List.getD_eq_getElem?_getD, List.getElem?_map]
  cases hist[j]? <;> rfl

lemma binIdx_ge_lo {hist : List (ℕ × ℚ)} {sigma c : ℚ} (hc : c ∈ distChanges hist) :
    distLo hist sigma ≤ binIdx c := by
  apply Int.floor_le_floor
  have h1 : min (listMin (distChanges hist)) (listMin (sigmaMarkers (distMean hist) sigma))
      ≤ c := le_trans (min_le_left _ _) (listMin_le hc)
  have hb : (0 : ℚ) < binSize := by norm_num [binSize]
  exact div_le_div_of_nonneg_right h1 hb.le

lemma binIdx_le_hi {hist : List (ℕ × ℚ)} {sigma c : ℚ} (hc : c ∈ distChanges hist) :
    binIdx c ≤ distHi hist sigma := by
  have h1 : c ≤ max (listMax (distChanges hist)) (listMax (sigmaMarkers (distMean hist) sigma)) :=
    le_trans (le_listMax hc) (le_max_left _ _)
  have hb : (0 : ℚ) < binSize := by norm_num [binSize]
  calc binIdx c ≤ ⌊max (listMax (distChanges hist))
        (listMax (sigmaMarkers (distMean hist) sigma)) / binSize⌋ :=
        Int.floor_le_floor (div_le_div_of_nonneg_right h1 hb.le)
  _ ≤ distHi hist sigma := Int.floor_le_ceil _

lemma mem_sigmaMarkers_mean (mean sigma : ℚ) : mean ∈ sigmaMarkers mean sigma := by
  simp [sigmaMarkers]

lemma mem_sigmaMarkers_low (mean sigma : ℚ) : mean - 2 * sigma ∈ sigmaMarkers mean sigma := by
  simp [sigmaMarkers]

lemma mem_sigmaMarkers_high (mean sigma : ℚ) : mean + 2 * sigma ∈ sigmaMarkers mean sigma := by
  simp [sigmaMarkers]

lemma distLo_le_distHi (hist : List (ℕ × ℚ)) (sigma : ℚ) :
    distLo hist sigma ≤ distHi hist sigma := by
  have hb : (0 : ℚ) < binSize := by norm_num [binSize]
  have hA : min (listMin (distChanges hist)) (listMin (sigmaMarkers (distMean hist) sigma))
      ≤ max (listMax (distChanges hist)) (listMax (sigmaMarkers (distMean hist) sigma)) := by
    calc min (listMin (distChanges hist)) (listMin (sigmaMarkers (distMean hist) sigma))
        ≤ listMin (sigmaMarkers (distMean hist) sigma) := min_le_right _ _
    _ ≤ distMean hist := listMin_le (mem_sigmaMarkers_mean _ _)
    _ ≤ listMax (sigmaMarkers (distMean hist) sigma) := le_listMax (mem_sigmaMarkers_mean _ _)
    _ ≤ _ := le_max_right _ _
  calc distLo hist sigma
      ≤ ⌊max (listMax (distChanges hist)) (listMax (sigmaMarkers (distMean hist) sigma)) / binSize⌋ :=
        Int.floor_le_floor (div_le_div_of_nonneg_right hA hb.le)
  _ ≤ distHi hist sigma := Int.floor_le_ceil _

/-- C4: the binned range spans at least `[mean - 2·sd, mean + 2·sd]`:
the least bin key is `distLo`, the greatest is `distHi`, and their grid
values `key * binSize` lie at or beyond the two-sigma markers, for every
`sigma` (hence for the computed standard deviation). -/
theorem distribution_sigma_marker_inclusion (hist : List (ℕ × ℚ)) (sigma : ℚ)
    (h2 : 2 ≤ hist.length) :
    distLo hist sigma ∈ (distributionData hist sigma).bins.map Prod.fst
    ∧ distHi hist sigma ∈ (distributionData hist sigma).bins.map Prod.fst
    ∧ (∀ k ∈ (distributionData hist sigma).bins.map Prod.fst,
        distLo hist sigma ≤ k ∧ k ≤ distHi hist sigma)
    ∧ (distLo hist sigma : ℚ) * binSize ≤ distMean hist - 2 * sigma
    ∧ distMean hist + 2 * sigma ≤ (distHi hist sigma : ℚ) * binSize := by
  have hb : (0 : ℚ) < binSize := by norm_num [binSize]
  have hmem : ∀ c ∈ distChanges hist,
      binIdx c ∈ (initBins (distLo hist sigma) (distHi hist sigma)).map Prod.fst := fun c hc =>
    mem_initBins_keys.2 ⟨binIdx_ge_lo hc, binIdx_le_hi hc⟩
  obtain ⟨hfst, -⟩ := foldl_addChange (distChanges hist)
    (initBins (distLo hist sigma) (distHi hist sigma)) (initBins_keys_nodup _ _) hmem
  have hbins : (distributionData hist sigma).bins.map Prod.fst
      = (initBins (distLo hist sigma) (distHi hist sigma)).map Prod.fst := by
    rw [distributionData_eq hist sigma h2]
    exact hfst
  refine ⟨?_, ?_, ?_, ?_, ?_⟩
  · rw [hbins]
    exact mem_initBins_keys.2 ⟨le_refl _, distLo_le_distHi hist sigma⟩
  · rw [hbins]
    exact mem_initBins_keys.2 ⟨distLo_le_distHi hist sigma, le_refl _⟩
  · intro k hk
    rw [hbins] at hk
    exact mem_initBins_keys.1 hk
  · have h1 : min (listMin (distChanges hist)) (listMin (sigmaMarkers (distMean hist) sigma))
        ≤ distMean hist - 2 * sigma :=
      (min_le_right _ _).trans (listMin_le (mem_sigmaMarkers_low _ _))
    have h2' : (distLo hist sigma : ℚ)
        ≤ min (listMin (distChanges hist)) (listMin (sigmaMarkers (distMean hist) sigma)) / binSize :=
      Int.floor_le _
    calc (distLo hist sigma : ℚ) * binSize
        ≤ (min (listMin (distChanges hist)) (listMin (sigmaMarkers (distMean hist) sigma)) / binSize)
            * binSize := mul_le_mul_of_nonneg_right h2' hb.le
    _ = min (listMin (distChanges hist)) (listMin (sigmaMarkers (distMean hist) sigma)) :=
        div_mul_cancel₀ _ hb.ne.symm
    _ ≤ distMean hist - 2 * sigma := h1
  · have h1 : distMean hist + 2 * sigma
        ≤ max (listMax (distChanges hist)) (listMax (sigmaMarkers (distMean hist) sigma)) :=
      (le_listMax (mem_sigmaMarkers_high _ _)).trans (le_max_right _ _)
    have h2' : max (listMax (distChanges hist)) (listMax (sigmaMarkers (distMean hist) sigma)) / binSize
        ≤ (distHi hist sigma : ℚ) := Int.le_ceil _
    have h3 : max (listMax (distChanges hist)) (listMax (sigmaMarkers (distMean hist) sigma))
        ≤ (distHi hist sigma : ℚ) * binSize := (div_le_iff₀ hb).1 h2'
    exact h1.trans h3

/-- C4 witness: the two-day series `[(0,100),(1,101)]` with `sigma = 1`
satisfies the length hypothesis and hence the marker-inclusion bounds. -/
theorem distribution_sigma_marker_inclusion_witness :
    2 ≤ ([((0 : ℕ), (100 : ℚ)), (1, 101)] : List (ℕ × ℚ)).length
    ∧ (distLo [((0 : ℕ), (100 : ℚ)), (1, 101)] 1
          ∈ (distributionData [((0 : ℕ), (100 : ℚ)), (1, 101)] 1).bins.map Prod.fst
      ∧ distHi [((0 : ℕ), (100 : ℚ)), (1, 101)] 1
          ∈ (distributionData [((0 : ℕ), (100 : ℚ)), (1, 101)] 1).bins.map Prod.fst
      ∧ (∀ k ∈ (distributionData [((0 : ℕ), (100 : ℚ)), (1, 101)] 1).bins.map Prod.fst,
          distLo [((0 : ℕ), (100 : ℚ)), (1, 101)] 1 ≤ k
          ∧ k ≤ distHi [((0 : ℕ), (100 : ℚ)), (1, 101)] 1)
      ∧ (distLo [((0 : ℕ), (100 : ℚ)), (1, 101)] 1 : ℚ) * binSize
          ≤ distMean [((0 : ℕ), (100 : ℚ)), (1, 101)] - 2 * 1
      ∧ distMean [((0 : ℕ), (100 : ℚ)), (1, 101)] + 2 * 1
          ≤ (distHi [((0 : ℕ), (100 : ℚ)), (1, 101)] 1 : ℚ) * binSize) :=
  ⟨by decide, distribution_sigma_marker_inclusion _ 1 (by decide)⟩

/-- C3: for a series of length `N ≥ 2`, the distribution's population
is exactly the `N-1` percentage changes at indices `1..N-1` (the day-0
placeholder is excluded), every change is captured by exactly one bin,
and the bin counts sum to `N-1`.  `sigma` is universally quantified
(markers only widen the range), so this holds for the computed `sd`. -/
theorem distribution_population_coverage (hist : List (ℕ × ℚ)) (sigma : ℚ)
    (h2 : 2 ≤ hist.length) :
    distChanges hist
        = (List.range (hist.length - 1)).map
            (fun i => pctChange (hist.getD i (0, 0)).2 (hist.getD (i + 1) (0, 0)).2)
    ∧ (distributionData hist sigma).totalDays = hist.length - 1
    ∧ ((distributionData hist sigma).bins.map Prod.snd).sum = hist.length - 1
    ∧ ∀ c ∈ distChanges hist,
        ((distributionData hist sigma).bins.filter (fun p => p.1 = binIdx c)).length = 1 := by
  have hmem : ∀ c ∈ distChanges hist,
      binIdx c ∈ (initBins (distLo hist sigma) (distHi hist sigma)).map Prod.fst := fun c hc =>
    mem_initBins_keys.2 ⟨binIdx_ge_lo hc, binIdx_le_hi hc⟩
  obtain ⟨hfst, hsum⟩ := foldl_addChange (distChanges hist)
    (initBins (distLo hist sigma) (distHi hist sigma)) (initBins_keys_nodup _ _) hmem
  have hlen : (distChanges hist).length = hist.length - 1 := by
    rw [distChanges, dailyChanges_length]
    simp
  refine ⟨?_, ?_, ?_, ?_⟩
  · rw [distChanges, dailyChanges_eq_map]
    simp only [List.length_map]
    apply List.map_congr_left
    intro j _
    rw [getD_map_snd, getD_map_snd]
  · rw [distributionData_eq hist sigma h2]
    exact hlen
  · rw [distributionData_eq hist sigma h2]
    show (((distChanges hist).foldl addChange
        (initBins (distLo hist sigma) (distHi hist sigma))).map Prod.snd).sum = hist.length - 1
    rw [hsum, initBins_counts_sum, hlen]
    omega
  · intro c hc
    rw [distributionData_eq hist sigma h2]
    show (((distChanges hist).foldl addChange
        (initBins (distLo hist sigma) (distHi hist sigma))).filter
          (fun p => p.1 = binIdx c)).length = 1
    apply filter_key_length
    · rw [hfst]
      exact initBins_keys_nodup _ _
    · rw [hfst]
      exact hmem c hc

/-- C3 witness: the two-day series `[(0,100),(1,101)]` (one change,
`+1%`) with `sigma = 1` satisfies the length hypothesis, so its single
change is covered and the counts sum to `1`. -/
theorem distribution_population_coverage_witness :
    2 ≤ ([((0 : ℕ), (100 : ℚ)), (1, 101)] : List (ℕ × ℚ)).length
    ∧ (distChanges [((0 : ℕ), (100 : ℚ)), (1, 101)]
          = (List.range (([((0 : ℕ), (100 : ℚ)), (1, 101)] : List (ℕ × ℚ)).length - 1)).map
              (fun i => pctChange (([((0 : ℕ), (100 : ℚ)), (1, 101)] : List (ℕ × ℚ)).getD i (0, 0)).2
                (([((0 : ℕ), (100 : ℚ)), (1, 101)] : List (ℕ × ℚ)).getD (i + 1) (0, 0)).2)
      ∧ (distributionData [((0 : ℕ), (100 : ℚ)), (1, 101)] 1).totalDays
          = ([((0 : ℕ), (100 : ℚ)), (1, 101)] : List (ℕ × ℚ)).length - 1
      ∧ (((distributionData [((0 : ℕ), (100 : ℚ)), (1, 101)] 1).bins.map Prod.snd)).sum
          = ([((0 : ℕ), (100 : ℚ)), (1, 101)] : List (ℕ × ℚ)).length - 1
      ∧ ∀ c ∈ distChanges [((0 : ℕ), (100 : ℚ)), (1, 101)],
          (((distributionData [((0 : ℕ), (100 : ℚ)), (1, 101)] 1).bins.filter
            (fun p => p.1 = binIdx c))).length = 1) :=
  ⟨by decide, distribution_population_coverage _ 1 (by decide)⟩

/-- C2 (amended): every change's assigned key `Math.floor(change/0.1)`
exists among the pre-initialised bins and among the final output's
keys, for any `sigma`; however the component has no create-bin
fallback: a change whose key were missing would leave the bins
unchanged — the guarded branch skips it rather than counting it. -/
theorem binning_key_always_exists (hist : List (ℕ × ℚ)) (sigma : ℚ)
    (h2 : 2 ≤ hist.length) (c : ℚ) (hc : c ∈ distChanges hist) :
    binIdx c ∈ (initBins (distLo hist sigma) (distHi hist sigma)).map Prod.fst
    ∧ binIdx c ∈ (distributionData hist sigma).bins.map Prod.fst
    ∧ ∀ bins : List (ℤ × ℕ), binIdx c ∉ bins.map Prod.fst → addChange bins c = bins := by
  have hmem : ∀ x ∈ distChanges hist,
      binIdx x ∈ (initBins (distLo hist sigma) (distHi hist sigma)).map Prod.fst := fun x hx =>
    mem_initBins_keys.2 ⟨binIdx_ge_lo hx, binIdx_le_hi hx⟩
  obtain ⟨hfst, -⟩ := foldl_addChange (distChanges hist)
    (initBins (distLo hist sigma) (distHi hist sigma)) (initBins_keys_nodup _ _) hmem
  refine ⟨hmem c hc, ?_, ?_⟩
  · rw [distributionData_eq hist sigma h2]
    show binIdx c ∈ ((distChanges hist).foldl addChange
        (initBins (distLo hist sigma) (distHi hist sigma))).map Prod.fst
    rw [hfst]
    exact hmem c hc
  · intro bins hmiss
    exact addChange_of_not_mem hmiss

/-- C2 witness: for the series `[(0,100),(1,101)]` (single change `+1`)
and `sigma = 1`, the change's key is among the pre-initialised bins. -/
theorem binning_key_always_exists_witness :
    2 ≤ ([((0 : ℕ), (100 : ℚ)), (1, 101)] : List (ℕ × ℚ)).length
    ∧ (1 : ℚ) ∈ distChanges [((0 : ℕ), (100 : ℚ)), (1, 101)]
    ∧ (binIdx (1 : ℚ) ∈ (initBins (distLo [((0 : ℕ), (100 : ℚ)), (1, 101)] 1)
          (distHi [((0 : ℕ), (100 : ℚ)), (1, 101)] 1)).map Prod.fst
      ∧ binIdx (1 : ℚ) ∈ (distributionData [((0 : ℕ), (100 : ℚ)), (1, 101)] 1).bins.map Prod.fst
      ∧ ∀ bins : List (ℤ × ℕ), binIdx (1 : ℚ) ∉ bins.map Prod.fst → addChange bins 1 = bins) :=
  ⟨by decide, by norm_num [distChanges, dailyChanges, pctChange],
   binning_key_always_exists _ 1 (by decide) 1
     (by norm_num [distChanges, dailyChanges, pctChange])⟩

/-- C2 counterexample: on a bins table missing the key (here the empty
table), the assignment step does *not* create the bin and does *not*
count the change — `addChange` returns the table unchanged with total
count still `0`, so the claimed create-and-count fallback does not
exist in the component. -/
theorem binning_no_fallback_cex :
    binIdx (0 : ℚ) ∉ (([] : List (ℤ × ℕ)).map Prod.fst)
    ∧ addChange [] (0 : ℚ) = []
    ∧ ((addChange [] (0 : ℚ)).map Prod.snd).sum = 0 := by
  refine ⟨by simp, rfl, rfl⟩

/-! ### Helper lemmas: `downsample` -/

lemma cdiv_succ (n s : ℕ) (hs : 0 < s) :
    cdiv (n + 1) s = cdiv n s + if n % s = 0 then 1 else 0 := by
  rcases Nat.eq_zero_or_pos n with rfl | hn
  · have h1 : 0 + 1 + s - 1 = s := by omega
    have h2 : 0 + s - 1 = s - 1 := by omega
    simp only [cdiv, h1, h2, Nat.div_self hs, Nat.div_eq_of_lt (by omega : s - 1 < s),
      Nat.zero_mod]
    simp
  · have h1 : n + 1 + s - 1 = n - 1 + 1 + s := by omega
    have h2 : n + s - 1 = n - 1 + s := by omega
    rw [cdiv, cdiv, h1, h2, Nat.add_div_right _ hs, Nat.add_div_right _ hs, Nat.succ_div]
    have h3 : n - 1 + 1 = n := by omega
    rw [h3]
    by_cases hd : s ∣ n
    · rw [if_pos hd, if_pos (Nat.dvd_iff_mod_eq_zero.mp hd)]
    · rw [if_neg hd, if_neg (fun h => hd (Nat.dvd_iff_mod_eq_zero.mpr h))]

lemma countP_range_mod (s : ℕ) (hs : 0 < s) (n : ℕ) :
    (List.range n).countP (fun i => i % s == 0) = cdiv n s := by
  induction n with
  | zero =>
    have h0 : cdiv 0 s = 0 := by
      rw [cdiv]
      exact Nat.div_eq_of_lt (by omega)
    simp [h0]
  | succ n ih =>
    rw [List.range_succ, List.countP_append, ih, cdiv_succ n s hs]
    by_cases hd : n % s = 0
    · simp [List.countP_cons, hd]
    · simp [List.countP_cons, hd]

lemma length_filter_enum_mod {α : Type} (l : List α) (s : ℕ) :
    ((l.enum.filter (fun p => p.1 % s == 0)).map Prod.snd).length
      = (List.range l.length).countP (fun i => i % s == 0) := by
  rw [List.length_map, ← List.countP_eq_length_filter, ← List.enum_map_fst l, List.countP_map]
  rfl

/-- C8 (amended with `1 ≤ limit`): short inputs are returned unchanged;
long inputs keep exactly the indices divisible by
`step = ceil(length/limit)`; the output length is at most `limit` and
at least (indeed exactly, when `limit < length`)
`ceil(length / ceil(length/limit))`; and the head element always
survives. -/
theorem downsample_spec {α : Type} (data : List α) (limit : ℕ) (hl : 1 ≤ limit) :
    (data.length ≤ limit → downsample data limit = data)
    ∧ (limit < data.length →
        downsample data limit
          = (data.enum.filter (fun p => p.1 % cdiv data.length limit == 0)).map Prod.snd)
    ∧ (downsample data limit).length ≤ limit
    ∧ cdiv data.length (cdiv data.length limit) ≤ (downsample data limit).length
    ∧ (downsample data limit).head? = data.head? := by
  by_cases h : data.length ≤ limit
  · have hds : downsample data limit = data := by
      rw [downsample, if_pos h]
    refine ⟨fun _ => hds, fun hlt => absurd h (by omega), ?_, ?_, by rw [hds]⟩
    · rw [hds]; exact h
    · rw [hds]
      rcases Nat.eq_zero_or_pos data.length with h0 | h1
      · rw [h0]
        have : cdiv 0 limit = 0 := Nat.div_eq_of_lt (by omega)
        rw [this]
        have : cdiv 0 0 = 0 := by rw [cdiv]
        omega
      · have hs1 : cdiv data.length limit = 1 := by
          rw [cdiv]
          apply Nat.div_eq_of_lt_le <;> omega
        rw [hs1, cdiv]
        omega
  · push_neg at h
    have hL1 : 1 ≤ data.length := by omega
    have hs : 0 < cdiv data.length limit := by
      rw [cdiv]
      apply Nat.lt_of_lt_of_le (by omega : 0 < 1)
      rw [Nat.le_div_iff_mul_le hl]
      omega
    have hds : downsample data limit
        = (data.enum.filter (fun p => p.1 % cdiv data.length limit == 0)).map Prod.snd := by
      rw [downsample, if_neg (by omega)]
      rfl
    have hlen : (downsample data limit).length
        = cdiv data.length (cdiv data.length limit) := by
      rw [hds, length_filter_enum_mod, countP_range_mod _ hs]
    have hkey : data.length ≤ limit * cdiv data.length limit := by
      have e := Nat.div_add_mod (data.length + limit - 1) limit
      have hr : (data.length + limit - 1) % limit < limit := Nat.mod_lt _ (by omega)
      rw [cdiv]
      omega
    refine ⟨fun hle => absurd hle (by omega), fun _ => hds, ?_, ?_, ?_⟩
    · rw [hlen, cdiv, Nat.div_le_iff_le_mul_add_pred hs]
      have : cdiv data.length limit * limit = limit * cdiv data.length limit := Nat.mul_comm _ _
      omega
    · rw [hlen]
    · cases data with
      | nil => simp at hL1
      | cons a t =>
        rw [hds, List.enum_cons]
        have hfilter : (((0 : ℕ), a) :: List.enumFrom 1 t).filter
            (fun p => p.1 % cdiv (a :: t).length limit == 0)
            = ((0 : ℕ), a) :: (List.enumFrom 1 t).filter
                (fun p => p.1 % cdiv (a :: t).length limit == 0) := by
          rw [List.filter_cons, if_pos (by simp)]
        rw [hfilter]
        rfl

/-- C8 witness: `downsample [0,1,2] 2` keeps indices `0` and `2`
(`step = 2`), has length `2 ≤ 2`, meets the lower bound, and keeps the
head. -/
theorem downsample_spec_witness :
    (1 : ℕ) ≤ 2
    ∧ ((([0, 1, 2] : List ℕ).length ≤ 2 → downsample [0, 1, 2] 2 = [0, 1, 2])
      ∧ (2 < ([0, 1, 2] : List ℕ).length →
          downsample [0, 1, 2] 2
            = (([0, 1, 2] : List ℕ).enum.filter
                (fun p => p.1 % cdiv ([0, 1, 2] : List ℕ).length 2 == 0)).map Prod.snd)
      ∧ (downsample ([0, 1, 2] : List ℕ) 2).length ≤ 2
      ∧ cdiv ([0, 1, 2] : List ℕ).length (cdiv ([0, 1, 2] : List ℕ).length 2)
          ≤ (downsample ([0, 1, 2] : List ℕ) 2).length
      ∧ (downsample ([0, 1, 2] : List ℕ) 2).head? = ([0, 1, 2] : List ℕ).head?) :=
  ⟨by decide, downsample_spec [0, 1, 2] 2 (by decide)⟩

/-- C8 counterexample: with `limit = 0` (admitted by the claim's
"every limit") and input `[0]`, the output is `[0]` of length `1 > 0`,
refuting the claimed bound `output length ≤ limit`.  JavaScript agrees:
`step = Math.ceil(1/0) = Infinity` and `0 % Infinity = 0`, so exactly
index 0 is kept. -/
theorem downsample_limit_zero_cex :
    downsample [(0 : ℕ)] 0 = [0] ∧ ¬ ((downsample [(0 : ℕ)] 0).length ≤ 0) := by
  decide

/-! ### Zone classification and the zero-sd guard -/

/-- C6: when `sd > 0`, a day whose diff is exactly `-1*sd` is zone
`"-1"` (the negative zones are tested first, with `<=`), and a day
whose diff is exactly `2*sd` is zone `"2"` (tested with `>=`). -/
theorem zone_boundary_classification (sigma : ℚ) (hs : 0 < sigma) :
    zoneOf (-1 * sigma) sigma = "-1" ∧ zoneOf (2 * sigma) sigma = "2" := by
  constructor
  · have h1 : ¬ (-1 * sigma ≤ -2 * sigma) := by linarith
    rw [zoneOf, if_neg h1, if_pos (le_refl _)]
  · have h1 : ¬ (2 * sigma ≤ -2 * sigma) := by linarith
    have h2 : ¬ (2 * sigma ≤ -1 * sigma) := by linarith
    rw [zoneOf, if_neg h1, if_neg h2, if_pos (le_refl _)]

/-- C6 witness: at `sigma = 1`, a diff of `-1` is zone `"-1"` and a
diff of `2` is zone `"2"`. -/
theorem zone_boundary_classification_witness :
    (0 : ℚ) < 1 ∧ (zoneOf (-1 * 1) 1 = "-1" ∧ zoneOf (2 * 1) 1 = "2") :=
  ⟨by norm_num, zone_boundary_classification 1 (by norm_num)⟩

/-- C1 counterexample: for the constant series `[100, 100, 100]` the
variance of the changes is `0`, so the computed `sd = Math.sqrt 0 = 0`;
the simulator's guard `!distributionData.sd` then returns `null` — the
`SimulationResult` *is* suppressed, and zone classification with
`sd = 0` would send a zero diff to `"-2"`, not `"0"`. -/
theorem zero_sd_suppression_cex :
    distVariance [((0 : ℕ), (100 : ℚ)), (1, 100), (2, 100)] = 0
    ∧ simulationData (processedData [((0 : ℕ), (100 : ℚ)), (1, 100), (2, 100)]) [] 100
        (distMean [((0 : ℕ), (100 : ℚ)), (1, 100), (2, 100)]) 0 ["-2", "-1"] = none
    ∧ zoneOf 0 0 = "-2" := by
  refine ⟨by norm_num [distVariance, popVarQ, popMean, dailyChanges, pctChange], ?_, ?_⟩
  · rw [simulationData, if_pos (Or.inr rfl)]
  · rw [zoneOf, if_pos (by norm_num)]

/-- C1 (amended): a zero standard deviation does not run the simulator:
the guard returns `none` for every input; and zone classification with
`sd = 0` assigns every day with `diff ≤ 0` — including a zero diff — to
zone `"-2"` and every day with `diff > 0` to zone `"2"`, so a zero-diff
day is *not* zone `"0"`. -/
theorem zero_sd_behavior :
    (∀ (processed : List DerivedDay) (divs : List (ℕ × ℚ)) (currentPrice mean : ℚ)
        (zones : List String), simulationData processed divs currentPrice mean 0 zones = none)
    ∧ (∀ d : ℚ, zoneOf d 0 = if d ≤ 0 then "-2" else "2") := by
  constructor
  · intro processed divs cp mean zones
    rw [simulationData, if_pos (Or.inr rfl)]
  · intro d
    by_cases hd : d ≤ 0
    · rw [zoneOf, if_pos (show d ≤ -2 * 0 by simpa using hd), if_pos hd]
    · push_neg at hd
      have h1 : ¬ (d ≤ -2 * 0) := by simpa using hd
      have h2 : ¬ (d ≤ -1 * 0) := by simpa using hd
      have h3 : d ≥ 2 * 0 := by simpa using hd.le
      rw [zoneOf, if_neg h1, if_neg h2, if_pos h3, if_neg (not_le.2 hd)]

/-! ### Helper lemmas: the simulation pass -/

lemma divStep_fixed_fields (divs : List (ℕ × ℚ)) (day : DerivedDay) (s : SimState) :
    (divStep divs day s).totalInvested = s.totalInvested
    ∧ (divStep divs day s).buyCount = s.buyCount
    ∧ (divStep divs day s).buyDates = s.buyDates := by
  rw [divStep]
  cases divLookup divs day.date
  · exact ⟨rfl, rfl, rfl⟩
  · dsimp only
    split_ifs <;> exact ⟨rfl, rfl, rfl⟩

lemma divStep_cash_eq {s : SimState} (divs : List (ℕ × ℚ)) (day : DerivedDay)
    (h : s.cashNoReinvest = s.totalDividendsCash) :
    (divStep divs day s).cashNoReinvest = (divStep divs day s).totalDividendsCash := by
  rw [divStep]
  cases divLookup divs day.date
  · exact h
  · dsimp only
    split_ifs <;> simp [h]

lemma divStep_initState (divs : List (ℕ × ℚ)) (day : DerivedDay) :
    divStep divs day initState = initState := by
  rw [divStep]
  cases hl : divLookup divs day.date
  · rfl
  · dsimp only
    rw [if_neg (by simp [initState]), if_neg (by simp [initState])]

lemma buyStep_cash_fields (zones : List String) (mean sigma : ℚ) (day : DerivedDay)
    (s : SimState) :
    (buyStep zones mean sigma day s).cashNoReinvest = s.cashNoReinvest
    ∧ (buyStep zones mean sigma day s).totalDividendsCash = s.totalDividendsCash := by
  rw [buyStep]
  dsimp only
  split_ifs <;> exact ⟨rfl, rfl⟩

lemma buyStep_empty_zones (mean sigma : ℚ) (day : DerivedDay) (s : SimState) :
    buyStep [] mean sigma day s = s := by
  rw [buyStep]
  dsimp only
  rw [if_neg (List.not_mem_nil _)]

lemma simRun_snd_length (divs : List (ℕ × ℚ)) (zones : List String) (mean sigma : ℚ) :
    ∀ (ds : List DerivedDay) (s : SimState),
      (simRun divs zones mean sigma s ds).2.length = ds.length
  | [], _ => rfl
  | d :: ds, s => by
    rw [simRun]
    dsimp only
    rw [List.length_cons, simRun_snd_length divs zones mean sigma ds _, List.length_cons]

lemma simRun_buyDates_mono (divs : List (ℕ × ℚ)) (zones : List String) (mean sigma : ℚ) :
    ∀ (ds : List DerivedDay) (s : SimState) (x : ℕ), x ∈ s.buyDates →
      x ∈ (simRun divs zones mean sigma s ds).1.buyDates
  | [], _, _, h => h
  | d :: ds, s, x, h => by
    rw [simRun]
    dsimp only
    apply simRun_buyDates_mono divs zones mean sigma ds _ x
    have h2 : x ∈ (divStep divs d s).buyDates := by
      rw [(divStep_fixed_fields divs d s).2.2]
      exact h
    rw [buyStep]
    dsimp only
    split_ifs
    · exact List.mem_append_left _ h2
    · exact h2

lemma simRun_empty_zones (divs : List (ℕ × ℚ)) (mean sigma : ℚ) :
    ∀ (ds : List DerivedDay) (s : SimState),
      (simRun divs [] mean sigma s ds).1.totalInvested = s.totalInvested
      ∧ (simRun divs [] mean sigma s ds).1.buyCount = s.buyCount
  | [], _ => ⟨rfl, rfl⟩
  | d :: ds, s => by
    rw [simRun]
    dsimp only
    rw [buyStep_empty_zones]
    obtain ⟨h1, h2⟩ := simRun_empty_zones divs mean sigma ds (divStep divs d s)
    obtain ⟨hf1, hf2, -⟩ := divStep_fixed_fields divs d s
    exact ⟨h1.trans hf1, h2.trans hf2⟩

lemma simRun_cash_eq (divs : List (ℕ × ℚ)) (zones : List String) (mean sigma : ℚ) :
    ∀ (ds : List DerivedDay) (s : SimState), s.cashNoReinvest = s.totalDividendsCash →
      (simRun divs zones mean sigma s ds).1.cashNoReinvest
        = (simRun divs zones mean sigma s ds).1.totalDividendsCash
  | [], _, h => h
  | d :: ds, s, h => by
    rw [simRun]
    dsimp only
    apply simRun_cash_eq divs zones mean sigma ds
    obtain ⟨hb1, hb2⟩ := buyStep_cash_fields zones mean sigma d (divStep divs d s)
    rw [hb1, hb2]
    exact divStep_cash_eq divs d h

lemma simRun_getLast (divs : List (ℕ × ℚ)) (zones : List String) (mean sigma : ℚ) :
    ∀ (ds : List DerivedDay) (s : SimState) (d0 : DerivedDay), ds.getLast? = some d0 →
      (simRun divs zones mean sigma s ds).2.getLast? = some
        ⟨d0.date, (simRun divs zones mean sigma s ds).1.totalInvested,
         (simRun divs zones mean sigma s ds).1.sharesReinvest * d0.close,
         (simRun divs zones mean sigma s ds).1.sharesNoReinvest * d0.close
           + (simRun divs zones mean sigma s ds).1.cashNoReinvest⟩
  | [], _, _, h => by simp at h
  | [d], s, d0, h => by
    have hd : d0 = d := by simpa using h.symm
    subst hd
    rfl
  | d :: d' :: ds, s, d0, h => by
    rw [List.getLast?_cons_cons] at h
    rw [simRun]
    dsimp only
    have hrec := simRun_getLast divs zones mean sigma (d' :: ds)
      (buyStep zones mean sigma d (divStep divs d s)) d0 h
    have hne : (simRun divs zones mean sigma
        (buyStep zones mean sigma d (divStep divs d s)) (d' :: ds)).2 ≠ [] := by
      intro hc
      have hlen := simRun_snd_length divs zones mean sigma (d' :: ds)
        (buyStep zones mean sigma d (divStep divs d s))
      rw [hc] at hlen
      simp at hlen
    obtain ⟨q, qs, hq⟩ := List.exists_cons_of_ne_nil hne
    rw [hq, List.getLast?_cons_cons, ← hq]
    exact hrec

lemma simulationData_eq (processed : List DerivedDay) (divs : List (ℕ × ℚ))
    (currentPrice mean sigma : ℚ) (zones : List String)
    (hne : processed.length ≠ 0) (hs : sigma ≠ 0) :
    simulationData processed divs currentPrice mean sigma zones = some
      ⟨(simRun divs zones mean sigma initState processed).2,
       (simRun divs zones mean sigma initState processed).1.buyCount,
       (simRun divs zones mean sigma initState processed).1.totalInvested,
       (simRun divs zones mean sigma initState processed).1.totalDividendsReinvested,
       (simRun divs zones mean sigma initState processed).1.sharesReinvest * currentPrice,
       (if 0 < (simRun divs zones mean sigma initState processed).1.totalInvested then
          ((simRun divs zones mean sigma initState processed).1.sharesReinvest * currentPrice
              - (simRun divs zones mean sigma initState processed).1.totalInvested)
            / (simRun divs zones mean sigma initState processed).1.totalInvested * 100
        else 0),
       (simRun divs zones mean sigma initState processed).1.buyDates⟩ := by
  rw [simulationData, if_neg (by tauto)]

/-- C7: the terminal summary of every produced `SimulationResult`
satisfies `currentValue = sharesReinvest * currentPrice` (the
`currentPrice` parameter, not the last close), the guarded
`totalReturn` formula, `totalReturn = 0` when nothing was invested, and
the zero-investment edge case for an empty selected-zone set. -/
theorem simulation_terminal_summary (processed : List DerivedDay) (divs : List (ℕ × ℚ))
    (currentPrice mean sigma : ℚ) (zones : List String) (r : SimResult)
    (h : simulationData processed divs currentPrice mean sigma zones = some r) :
    r.currentValue
        = (simRun divs zones mean sigma initState processed).1.sharesReinvest * currentPrice
    ∧ (0 < r.totalInvested →
        r.totalReturn = (r.currentValue - r.totalInvested) / r.totalInvested * 100)
    ∧ (r.totalInvested = 0 → r.totalReturn = 0)
    ∧ (zones = [] → r.totalBuys = 0 ∧ r.totalInvested = 0 ∧ r.totalReturn = 0) := by
  by_cases hg : processed.length = 0 ∨ sigma = 0
  · rw [simulationData, if_pos hg] at h
    cases h
  · push_neg at hg
    rw [simulationData_eq processed divs currentPrice mean sigma zones hg.1 hg.2] at h
    have hr := (Option.some.inj h).symm
    subst hr
    refine ⟨rfl, ?_, ?_, ?_⟩
    · intro hpos
      dsimp only at hpos ⊢
      rw [if_pos hpos]
    · intro h0
      dsimp only at h0 ⊢
      rw [if_neg (by rw [h0]; exact lt_irrefl 0)]
    · intro hz
      subst hz
      obtain ⟨h1, h2⟩ := simRun_empty_zones divs mean sigma processed initState
      have h1' : (simRun divs [] mean sigma initState processed).1.totalInvested = 0 := by
        rw [h1]; rfl
      refine ⟨?_, h1', ?_⟩
      · dsimp only
        rw [h2]; rfl
      · dsimp only
        rw [if_neg (by rw [h1']; exact lt_irrefl 0)]

/-- C9 (amended): `totalDividends` reports exactly the Reinvest-policy
accumulator; the Cash-policy dividend total always equals the
`cashNoReinvest` balance; and that balance — the accumulated cash
dividends — *is* part of the returned result: the last history point's
`valueNoReinvest` equals `sharesNoReinvest * close + totalDividendsCash`. -/
theorem dividend_accounting (processed : List DerivedDay) (divs : List (ℕ × ℚ))
    (currentPrice mean sigma : ℚ) (zones : List String) (r : SimResult)
    (h : simulationData processed divs currentPrice mean sigma zones = some r) :
    r.totalDividends
        = (simRun divs zones mean sigma initState processed).1.totalDividendsReinvested
    ∧ (simRun divs zones mean sigma initState processed).1.cashNoReinvest
        = (simRun divs zones mean sigma initState processed).1.totalDividendsCash
    ∧ ∀ d0 : DerivedDay, processed.getLast? = some d0 →
        r.history.getLast? = some
          ⟨d0.date, (simRun divs zones mean sigma initState processed).1.totalInvested,
           (simRun divs zones mean sigma initState processed).1.sharesReinvest * d0.close,
           (simRun divs zones mean sigma initState processed).1.sharesNoReinvest * d0.close
             + (simRun divs zones mean sigma initState processed).1.totalDividendsCash⟩ := by
  by_cases hg : processed.length = 0 ∨ sigma = 0
  · rw [simulationData, if_pos hg] at h
    cases h
  · push_neg at hg
    rw [simulationData_eq processed divs currentPrice mean sigma zones hg.1 hg.2] at h
    have hr := (Option.some.inj h).symm
    subst hr
    have hcash := simRun_cash_eq divs zones mean sigma processed initState rfl
    refine ⟨rfl, hcash, ?_⟩
    intro d0 hd0
    dsimp only
    rw [← hcash]
    exact simRun_getLast divs zones mean sigma processed initState d0 hd0

/-- C7 witness: a one-day run with an empty selected-zone set produces
the all-zero summary and satisfies every terminal identity. -/
theorem simulation_terminal_summary_witness :
    simulationData [⟨0, 100, 0, 0, none, none, none⟩] [] 50 0 1 []
        = some (⟨[⟨0, 0, 0, 0⟩], 0, 0, 0, 0, 0, []⟩ : SimResult)
    ∧ ((⟨[⟨0, 0, 0, 0⟩], 0, 0, 0, 0, 0, []⟩ : SimResult).currentValue
          = (simRun [] [] 0 1 initState
              [⟨0, 100, 0, 0, none, none, none⟩]).1.sharesReinvest * 50
      ∧ (0 < (⟨[⟨0, 0, 0, 0⟩], 0, 0, 0, 0, 0, []⟩ : SimResult).totalInvested →
          (⟨[⟨0, 0, 0, 0⟩], 0, 0, 0, 0, 0, []⟩ : SimResult).totalReturn
            = ((⟨[⟨0, 0, 0, 0⟩], 0, 0, 0, 0, 0, []⟩ : SimResult).currentValue
                - (⟨[⟨0, 0, 0, 0⟩], 0, 0, 0, 0, 0, []⟩ : SimResult).totalInvested)
              / (⟨[⟨0, 0, 0, 0⟩], 0, 0, 0, 0, 0, []⟩ : SimResult).totalInvested * 100)
      ∧ ((⟨[⟨0, 0, 0, 0⟩], 0, 0, 0, 0, 0, []⟩ : SimResult).totalInvested = 0 →
          (⟨[⟨0, 0, 0, 0⟩], 0, 0, 0, 0, 0, []⟩ : SimResult).totalReturn = 0)
      ∧ (([] : List String) = [] →
          (⟨[⟨0, 0, 0, 0⟩], 0, 0, 0, 0, 0, []⟩ : SimResult).totalBuys = 0
          ∧ (⟨[⟨0, 0, 0, 0⟩], 0, 0, 0, 0, 0, []⟩ : SimResult).totalInvested = 0
          ∧ (⟨[⟨0, 0, 0, 0⟩], 0, 0, 0, 0, 0, []⟩ : SimResult).totalReturn = 0)) := by
  have h : simulationData [⟨0, 100, 0, 0, none, none, none⟩] [] 50 0 1 []
      = some (⟨[⟨0, 0, 0, 0⟩], 0, 0, 0, 0, 0, []⟩ : SimResult) := by
    norm_num [simulationData, simRun, buyStep, divStep, divLookup, zoneOf, initState]
  exact ⟨h, simulation_terminal_summary _ _ _ _ _ _ _ h⟩

/-- C9 witness: a two-day run with a dividend of `1` per share on day 1
and zone `"0"` selected.  `totalDividends` is the reinvested total `1`,
the cash accumulators agree, and the last history point carries the
dividend cash. -/
theorem dividend_accounting_witness :
    simulationData [⟨0, 100, 0, 0, none, none, none⟩, ⟨1, 100, 0, 0, none, none, none⟩]
        [(1, 1)] 100 0 1 ["0"]
      = some (⟨[⟨0, 100, 100, 100⟩, ⟨1, 200, 201, 201⟩], 2, 200, 1, 201, 1/2, [0, 1]⟩ : SimResult)
    ∧ ((⟨[⟨0, 100, 100, 100⟩, ⟨1, 200, 201, 201⟩], 2, 200, 1, 201, 1/2, [0, 1]⟩
          : SimResult).totalDividends
        = (simRun [(1, 1)] ["0"] 0 1 initState
            [⟨0, 100, 0, 0, none, none, none⟩,
             ⟨1, 100, 0, 0, none, none, none⟩]).1.totalDividendsReinvested
      ∧ (simRun [(1, 1)] ["0"] 0 1 initState
            [⟨0, 100, 0, 0, none, none, none⟩,
             ⟨1, 100, 0, 0, none, none, none⟩]).1.cashNoReinvest
          = (simRun [(1, 1)] ["0"] 0 1 initState
              [⟨0, 100, 0, 0, none, none, none⟩,
               ⟨1, 100, 0, 0, none, none, none⟩]).1.totalDividendsCash
      ∧ ∀ d0 : DerivedDay,
          ([⟨0, 100, 0, 0, none, none, none⟩,
            ⟨1, 100, 0, 0, none, none, none⟩] : List DerivedDay).getLast? = some d0 →
          (⟨[⟨0, 100, 100, 100⟩, ⟨1, 200, 201, 201⟩], 2, 200, 1, 201, 1/2, [0, 1]⟩
              : SimResult).history.getLast? = some
            ⟨d0.date,
             (simRun [(1, 1)] ["0"] 0 1 initState
                [⟨0, 100, 0, 0, none, none, none⟩,
                 ⟨1, 100, 0, 0, none, none, none⟩]).1.totalInvested,
             (simRun [(1, 1)] ["0"] 0 1 initState
                [⟨0, 100, 0, 0, none, none, none⟩,
                 ⟨1, 100, 0, 0, none, none, none⟩]).1.sharesReinvest * d0.close,
             (simRun [(1, 1)] ["0"] 0 1 initState
                [⟨0, 100, 0, 0, none, none, none⟩,
                 ⟨1, 100, 0, 0, none, none, none⟩]).1.sharesNoReinvest * d0.close
               + (simRun [(1, 1)] ["0"] 0 1 initState
                  [⟨0, 100, 0, 0, none, none, none⟩,
                   ⟨1, 100, 0, 0, none, none, none⟩]).1.totalDividendsCash⟩) := by
  have h : simulationData
      [⟨0, 100, 0, 0, none, none, none⟩, ⟨1, 100, 0, 0, none, none, none⟩]
      [(1, 1)] 100 0 1 ["0"]
      = some (⟨[⟨0, 100, 100, 100⟩, ⟨1, 200, 201, 201⟩], 2, 200, 1, 201, 1/2, [0, 1]⟩
          : SimResult) := by
    norm_num [simulationData, simRun, buyStep, divStep, divLookup, zoneOf, initState]
  exact ⟨h, dividend_accounting _ _ _ _ _ _ _ h⟩

/-- C9 counterexample: in the same concrete run the Cash-policy
dividend total is `1 ≠ 0`, the final share value alone is `200`, yet
the returned result's second history point reports
`valueNoReinvest = 201` — the accumulated cash dividends *do* appear in
a field of the returned `SimulationResult`, refuting "never appear in
any field". -/
theorem dividend_in_history_cex :
    simulationData [⟨0, 100, 0, 0, none, none, none⟩, ⟨1, 100, 0, 0, none, none, none⟩]
        [(1, 1)] 100 0 1 ["0"]
      = some (⟨[⟨0, 100, 100, 100⟩, ⟨1, 200, 201, 201⟩], 2, 200, 1, 201, 1/2, [0, 1]⟩ : SimResult)
    ∧ (simRun [(1, 1)] ["0"] 0 1 initState
        [⟨0, 100, 0, 0, none, none, none⟩,
         ⟨1, 100, 0, 0, none, none, none⟩]).1.totalDividendsCash = 1
    ∧ (simRun [(1, 1)] ["0"] 0 1 initState
        [⟨0, 100, 0, 0, none, none, none⟩,
         ⟨1, 100, 0, 0, none, none, none⟩]).1.sharesNoReinvest * 100 = 200
    ∧ ((⟨[⟨0, 100, 100, 100⟩, ⟨1, 200, 201, 201⟩], 2, 200, 1, 201, 1/2, [0, 1]⟩
          : SimResult).history.getD 1 ⟨0, 0, 0, 0⟩).valueNoReinvest = 201 := by
  refine ⟨?_, ?_, ?_, rfl⟩
  · norm_num [simulationData, simRun, buyStep, divStep, divLookup, zoneOf, initState]
  · norm_num [simRun, buyStep, divStep, divLookup, zoneOf, initState]
  · norm_num [simRun, buyStep, divStep, divLookup, zoneOf, initState]

lemma processedData_cons (h0 : ℕ × ℚ) (t : List (ℕ × ℚ)) :
    processedData (h0 :: t)
      = derivedDay (h0 :: t) 0
          :: (List.range t.length).map (fun j => derivedDay (h0 :: t) (j + 1)) := by
  rw [processedData, List.length_cons, List.range_succ_eq_map, List.map_cons, List.map_map]
  refine congrArg₂ List.cons rfl ?_
  apply List.map_congr_left
  intro j _
  simp [Function.comp, Nat.succ_eq_add_one]

lemma derivedDay_zero (h0 : ℕ × ℚ) (t : List (ℕ × ℚ)) :
    derivedDay (h0 :: t) 0 = ⟨h0.1, h0.2, 0, 0, none, none, none⟩ := by
  rw [derivedDay]
  norm_num

/-- C10: day 0 participates fully with its placeholder
`changePercent = 0`: whenever `|mean| < sd` its zone is `"0"`, and if
`"0"` is selected the simulator records a `$100` buy on day 0 — the
first history point has `invested = 100` and day 0's date enters
`buyDates` — even though day 0 has no real return. -/
theorem day_zero_participates (hist : List (ℕ × ℚ)) (divs : List (ℕ × ℚ))
    (currentPrice sigma : ℚ) (zones : List String)
    (hne : hist ≠ []) (hm : |distMean hist| < sigma) (hz : "0" ∈ zones) :
    zoneOf (0 - distMean hist) sigma = "0"
    ∧ ∃ r : SimResult,
        simulationData (processedData hist) divs currentPrice (distMean hist) sigma zones = some r
        ∧ (hist.getD 0 (0, 0)).1 ∈ r.buyDates
        ∧ ∃ pt : HistPoint, r.history.head? = some pt
            ∧ pt.date = (hist.getD 0 (0, 0)).1 ∧ pt.invested = 100 := by
  have hσ : 0 < sigma := lt_of_le_of_lt (abs_nonneg _) hm
  obtain ⟨hm1, hm2⟩ := abs_lt.1 hm
  have hzone : zoneOf (0 - distMean hist) sigma = "0" := by
    rw [zoneOf, if_neg (by intro hc; linarith), if_neg (by intro hc; linarith),
      if_neg (by intro hc; linarith), if_neg (by intro hc; linarith)]
  obtain ⟨h0, t, rfl⟩ := List.exists_cons_of_ne_nil hne
  have hP := processedData_cons h0 t
  have hd0 := derivedDay_zero h0 t
  have hlen : (processedData (h0 :: t)).length ≠ 0 := by
    rw [hP]
    simp
  refine ⟨hzone, ?_⟩
  rw [simulationData_eq _ divs currentPrice (distMean (h0 :: t)) sigma zones hlen hσ.ne']
  refine ⟨_, rfl, ?_, ?_⟩
  · -- day 0's date is recorded in buyDates
    show (h0 :: t |>.getD 0 (0, 0)).1
        ∈ (simRun divs zones (distMean (h0 :: t)) sigma initState (processedData (h0 :: t))).1.buyDates
    rw [hP, hd0, simRun]
    dsimp only
    apply simRun_buyDates_mono
    rw [divStep_initState, buyStep]
    dsimp only
    rw [hzone, if_pos hz]
    simp [initState, List.getD_cons_zero]
  · -- the first history point records the $100 buy
    rw [hP, hd0, simRun]
    dsimp only
    refine ⟨_, rfl, rfl, ?_⟩
    show (buyStep zones (distMean (h0 :: t)) sigma ⟨h0.1, h0.2, 0, 0, none, none, none⟩
        (divStep divs ⟨h0.1, h0.2, 0, 0, none, none, none⟩ initState)).totalInvested = 100
    rw [divStep_initState, buyStep]
    dsimp only
    rw [hzone, if_pos hz]
    norm_num [initState]

/-- C10 witness: the one-day series `[(0, 100)]` has `distMean = 0`,
so with `sigma = 1` and zone `"0"` selected, day 0 is zone `"0"` and a
`$100` buy is recorded at the first close. -/
theorem day_zero_participates_witness :
    (([((0 : ℕ), (100 : ℚ))] : List (ℕ × ℚ)) ≠ []
      ∧ |distMean [((0 : ℕ), (100 : ℚ))]| < 1
      ∧ "0" ∈ (["0"] : List String))
    ∧ (zoneOf (0 - distMean [((0 : ℕ), (100 : ℚ))]) 1 = "0"
      ∧ ∃ r : SimResult,
          simulationData (processedData [((0 : ℕ), (100 : ℚ))]) [] 100
              (distMean [((0 : ℕ), (100 : ℚ))]) 1 ["0"] = some r
          ∧ (([((0 : ℕ), (100 : ℚ))] : List (ℕ × ℚ)).getD 0 (0, 0)).1 ∈ r.buyDates
          ∧ ∃ pt : HistPoint, r.history.head? = some pt
              ∧ pt.date = (([((0 : ℕ), (100 : ℚ))] : List (ℕ × ℚ)).getD 0 (0, 0)).1
              ∧ pt.invested = 100) :=
  ⟨⟨by simp, by norm_num [distMean, popMean, dailyChanges], by simp⟩,
   day_zero_participates _ _ _ _ _ (by simp)
     (by norm_num [distMean, popMean, dailyChanges]) (by simp)⟩


/-- C5: `processedData` entry `i` has, for `i < 19`, `rollingSD = 0`
and unset band fields; for `19 ≤ i`, `rollingSD` is the population
standard deviation of the 19 within-window changes of the window
`series[i-19..i]` of 20 samples, `sma20` its population close mean, and
the bands that mean ± 2 population standard deviations of the closes. -/
theorem rolling_stats_correct (hist : List (ℕ × ℚ)) (i : ℕ) (hi : i < hist.length) :
    (processedData hist)[i]? = some (derivedDay hist i)
    ∧ (i < 19 →
        (derivedDay hist i).rollingSD = 0
        ∧ (derivedDay hist i).sma20 = none
        ∧ (derivedDay hist i).upperBand = none
        ∧ (derivedDay hist i).lowerBand = none)
    ∧ (19 ≤ i →
        (windowCloses hist i).length = 20
        ∧ (∀ j < 20, (windowCloses hist i)[j]? = (hist[i - 19 + j]?).map Prod.snd)
        ∧ (windowChanges hist i).length = 19
        ∧ (derivedDay hist i).rollingSD = popSD (windowChanges hist i)
        ∧ (derivedDay hist i).sma20 = some (popMean (windowCloses hist i))
        ∧ (derivedDay hist i).upperBand
            = some ((popMean (windowCloses hist i) : ℝ) + 2 * popSD (windowCloses hist i))
        ∧ (derivedDay hist i).lowerBand
            = some ((popMean (windowCloses hist i) : ℝ) - 2 * popSD (windowCloses hist i))) := by
  refine ⟨?_, ?_, ?_⟩
  · rw [processedData, List.getElem?_map, List.getElem?_range hi]
    rfl
  · intro h19
    rw [derivedDay]
    dsimp only
    rw [if_neg (by omega)]
    exact ⟨rfl, rfl, rfl, rfl⟩
  · intro h19
    have hwc : ((hist.drop (i - 19)).take 20).map Prod.snd = windowCloses hist i := rfl
    have hlen20 : (windowCloses hist i).length = 20 := by
      rw [windowCloses, List.length_map, List.length_take, List.length_drop]
      omega
    have hchg : dailyChanges (windowCloses hist i) = windowChanges hist i := by
      rw [dailyChanges_eq_map, hlen20, windowChanges]
    have hlen19 : (windowChanges hist i).length = 19 := by
      rw [windowChanges, List.length_map, List.length_range]
    refine ⟨hlen20, ?_, hlen19, ?_, ?_, ?_, ?_⟩
    · intro j hj
      rw [windowCloses, List.getElem?_map, List.getElem?_take, if_pos hj, List.getElem?_drop]
    · rw [derivedDay]
      dsimp only
      rw [if_pos h19]
      show (if 0 < (dailyChanges (((hist.drop (i - 19)).take 20).map Prod.snd)).length then
          Real.sqrt ((popVarQ (dailyChanges (((hist.drop (i - 19)).take 20).map Prod.snd)) : ℚ) : ℝ)
        else 0) = popSD (windowChanges hist i)
      rw [hwc, hchg, if_pos (by rw [hlen19]; omega)]
      rfl
    · rw [derivedDay]
      dsimp only
      rw [if_pos h19]
      show some (popMean (((hist.drop (i - 19)).take 20).map Prod.snd))
          = some (popMean (windowCloses hist i))
      rw [hwc]
    · rw [derivedDay]
      dsimp only
      rw [if_pos h19]
      show some ((popMean (((hist.drop (i - 19)).take 20).map Prod.snd) : ℝ)
          + 2 * Real.sqrt ((popVarQ (((hist.drop (i - 19)).take 20).map Prod.snd) : ℚ) : ℝ))
        = some ((popMean (windowCloses hist i) : ℝ) + 2 * popSD (windowCloses hist i))
      rw [hwc]
      rfl
    · rw [derivedDay]
      dsimp only
      rw [if_pos h19]
      show some ((popMean (((hist.drop (i - 19)).take 20).map Prod.snd) : ℝ)
          - 2 * Real.sqrt ((popVarQ (((hist.drop (i - 19)).take 20).map Prod.snd) : ℚ) : ℝ))
        = some ((popMean (windowCloses hist i) : ℝ) - 2 * popSD (windowCloses hist i))
      rw [hwc]
      rfl


/-- C5 witness: the 20-day constant series satisfies `19 < length`, so
index 19 carries the full window statistics and indices below 19 the
unset fields. -/
theorem rolling_stats_correct_witness :
    (19 : ℕ) < constHist20.length
    ∧ ((processedData constHist20)[19]? = some (derivedDay constHist20 19)
      ∧ ((19 : ℕ) < 19 →
          (derivedDay constHist20 19).rollingSD = 0
          ∧ (derivedDay constHist20 19).sma20 = none
          ∧ (derivedDay constHist20 19).upperBand = none
          ∧ (derivedDay constHist20 19).lowerBand = none)
      ∧ ((19 : ℕ) ≤ 19 →
          (windowCloses constHist20 19).length = 20
          ∧ (∀ j < 20, (windowCloses constHist20 19)[j]? = (constHist20[19 - 19 + j]?).map Prod.snd)
          ∧ (windowChanges constHist20 19).length = 19
          ∧ (derivedDay constHist20 19).rollingSD = popSD (windowChanges constHist20 19)
          ∧ (derivedDay constHist20 19).sma20 = some (popMean (windowCloses constHist20 19))
          ∧ (derivedDay constHist20 19).upperBand
              = some ((popMean (windowCloses constHist20 19) : ℝ)
                  + 2 * popSD (windowCloses constHist20 19))
          ∧ (derivedDay constHist20 19).lowerBand
              = some ((popMean (windowCloses constHist20 19) : ℝ)
                  - 2 * popSD (windowCloses constHist20 19)))) :=
  ⟨by decide, rolling_stats_correct constHist20 19 (by decide)⟩
